import Mathlib


/-
Verification of the markdown blog site's rendering core.

The repository renders markdown blog posts through a unified plugin chain
(app/blogpost/[slug]/page.js), extracts a table of contents from the rendered
markup (components/onThisPage.jsx), lists blog cards (app/blog/page.jsx) and
handles a contact form (contact page and the /api/contact route).

This file embeds those parts shallowly: the page components become pure Lean
functions over explicit inputs (the content store is a finite map from file
path to file text), the unified transformer chain becomes a composition of
tree transformations in the exact order the source attaches them, and the
third-party plugin behaviors that the source only composes (gray-matter,
rehype-slug, rehype-autolink-headings, rehype-document, rehype-pretty-code)
are modelled from the specification's description of the corresponding
pipeline stages, since their code is not part of this repository.
-/

/-! ### Decimal rendering of naturals

Used by the anchor-id stage: colliding heading ids get a numeric suffix
("overview-1").  We render decimals with a fuel-driven structural recursion so
that everything evaluates inside the kernel, and prove the rendering injective
via a round-trip with `fromDigits`. -/

/-- Character for a single decimal digit (0-9). -/
def digitChar (d : Nat) : Char := Char.ofNat (48 + d)

/-- Little-endian decimal digits of `n`; `fuel ≥ n` makes the result exact. -/
def toDigitsF : Nat → Nat → List Nat
  | 0, n => [n % 10]
  | fuel + 1, n => if n < 10 then [n] else n % 10 :: toDigitsF fuel (n / 10)

/-- Value of a little-endian digit list. -/
def fromDigits : List Nat → Nat
  | [] => 0
  | d :: ds => d + 10 * fromDigits ds

/-- Decimal string of a natural number. -/
def natRepr (n : Nat) : String := String.mk (((toDigitsF n n).reverse).map digitChar)

/-! ### Anchor-id derivation (Markup Transformer stage 6)

Modelled from the spec: the anchor identifier of a heading is "derived
deterministically from its text (lower-cased, non-alphanumeric runs replaced
by a single separator, collisions disambiguated by a numeric suffix)"; the
rehype-slug plugin that implements this stage is not part of the repository. -/
/-- Characters kept by slug derivation: ASCII letters and digits. -/
def isSlugKeep (c : Char) : Bool := c.isAlpha || c.isDigit

/-- Lower-case kept characters; a maximal run of other characters becomes one
separator.  The boolean tracks whether we are inside such a run. -/
def slugifyGo : Bool → List Char → List Char
  | _, [] => []
  | inRun, c :: cs =>
    if isSlugKeep c then c.toLower :: slugifyGo false cs
    else if inRun then slugifyGo true cs
    else '-' :: slugifyGo true cs

/-- Slug text derivation: lower-case, non-alphanumeric runs to one dash. -/
def slugify (s : String) : String := String.mk (slugifyGo false s.data)

/-- A colliding slug gets a numeric suffix: "overview-1", "overview-2", ... -/
def numberedSlug (base : String) (n : Nat) : String := base ++ "-" ++ natRepr n

/-- First numeric suffix from `n` on that yields a slug not yet in `used`.
The fuel bounds the search; `used.length + 1` attempts always suffice. -/
def freshFromAux (used : List String) (base : String) : Nat → Nat → String
  | n, 0 => numberedSlug base n
  | n, fuel + 1 =>
    if numberedSlug base n ∈ used then freshFromAux used base (n + 1) fuel
    else numberedSlug base n

/-- A slug for `base` that avoids every slug in `used`: `base` itself when
free, otherwise the first free numeric-suffix variant. -/
def freshFrom (used : List String) (base : String) : String :=
  if base ∈ used then freshFromAux used base 1 (used.length + 1) else base

/-- Sequential slug assignment over a list of heading texts, threading the set
of already-used slugs exactly as the anchor-id stage does over a document. -/
def sluggerRun (used : List String) : List String → List String
  | [] => []
  | t :: ts =>
    let a := freshFrom used (slugify t)
    a :: sluggerRun (a :: used) ts

/-! ### Line handling -/
/-- Split a character list at newlines, accumulating the current line. -/
def splitLinesGo : List Char → List Char → List String
  | [], acc => [String.mk acc.reverse]
  | c :: cs, acc =>
    if c = '\n' then String.mk acc.reverse :: splitLinesGo cs []
    else splitLinesGo cs (c :: acc)

/-- The lines of a string (newline-separated, like splitting on "\n"). -/
def splitLines (s : String) : List String := splitLinesGo s.data []

/-- Join lines back with newlines. -/
def joinLines : List String → String
  | [] => ""
  | [l] => l
  | l :: ls => l ++ "\n" ++ joinLines ls

/-- Drop spaces at both ends of a character list. -/
def trimChars (cs : List Char) : List Char :=
  ((cs.dropWhile (· = ' ')).reverse.dropWhile (· = ' ')).reverse

/-! ### Markdown document model (Markup Transformer stages 1-2 input)

The body grammar the spec requires: headings, fenced code blocks with an
optional language tag, and paragraphs.  `parseMarkdown` models the structural
parse (stage 1) of the remark-parse plugin, which is not part of the
repository, on exactly the constructs the spec names. -/
inductive MdBlock where
  | heading : Nat → String → MdBlock
  | paragraph : String → MdBlock
  | codeBlock : String → String → MdBlock
deriving Repr, DecidableEq

/-- Count leading hash marks of a line. -/
def countHashes : List Char → Nat
  | '#' :: cs => countHashes cs + 1
  | _ => 0

/-- A heading line: one to six hashes, then a space (or nothing), then text. -/
def headingOf (line : String) : Option (Nat × String) :=
  let cs := line.data
  let k := countHashes cs
  if 1 ≤ k ∧ k ≤ 6 then
    match cs.drop k with
    | [] => some (k, "")
    | c :: rest => if c = ' ' then some (k, String.mk (trimChars rest)) else none
  else none

/-- The code-fence character (a backtick). -/
def fenceChar : Char := Char.ofNat 96

/-- Does a line open a code fence, and with which language tag? -/
def fenceOpenOf (line : String) : Option String :=
  match line.data with
  | c1 :: c2 :: c3 :: rest =>
    if c1 = fenceChar ∧ c2 = fenceChar ∧ c3 = fenceChar then
      some (String.mk ((trimChars rest).takeWhile (· ≠ ' ')))
    else none
  | _ => none

/-- Does a line close a code fence? -/
def isFenceClose (line : String) : Bool :=
  trimChars line.data = [fenceChar, fenceChar, fenceChar]

/-- Flush the accumulated paragraph lines (kept in reverse) into a block. -/
def finishPara (acc : List String) : List MdBlock :=
  if acc.isEmpty then [] else [MdBlock.paragraph (joinLines acc.reverse)]

/-- Line-by-line block parse.  `para` collects paragraph lines in reverse;
`fence` is the open code fence (language, collected lines in reverse). -/
def parseGo : List String → List String → Option (String × List String) → List MdBlock
  | [], para, none => finishPara para
  | [], para, some (lang, code) =>
    finishPara para ++ [MdBlock.codeBlock lang (joinLines code.reverse)]
  | l :: ls, para, some (lang, code) =>
    if isFenceClose l then
      MdBlock.codeBlock lang (joinLines code.reverse) :: parseGo ls para none
    else parseGo ls para (some (lang, l :: code))
  | l :: ls, para, none =>
    if trimChars l.data = [] then finishPara para ++ parseGo ls [] none
    else
      match fenceOpenOf l with
      | some lang => finishPara para ++ parseGo ls [] (some (lang, []))
      | none =>
        match headingOf l with
        | some (k, t) => finishPara para ++ (MdBlock.heading k t :: parseGo ls [] none)
        | none => parseGo ls (l :: para) none

/-- Structural parse of a markdown body into blocks. -/
def parseMarkdown (body : String) : List MdBlock := parseGo (splitLines body) [] none

/-! ### Front-Matter Parser

Modelled from the spec: the gray-matter split used by `matter(fileContent)` in
the page components is not part of the repository.  Per the spec, a metadata
block must appear as a fenced block at the very start using the recognized
delimiter; malformed or absent metadata yields an empty mapping and the
original text as body (no fatal error); keys are unique with last-write-wins;
values are untyped strings. -/
structure MatterResult where
  data : List (String × String)
  content : String
deriving Repr, DecidableEq

/-- Split lines at the first closing front-matter delimiter. -/
def splitAtCloseFM : List String → Option (List String × List String)
  | [] => none
  | l :: ls =>
    if l = "---" then some ([], ls)
    else (splitAtCloseFM ls).map fun p => (l :: p.1, p.2)

/-- Split a character list at the first colon. -/
def splitColon : List Char → Option (List Char × List Char)
  | [] => none
  | c :: cs =>
    if c = ':' then some ([], cs)
    else (splitColon cs).map fun p => (c :: p.1, p.2)

/-- The single-quote character. -/
def singleQuoteChar : Char := Char.ofNat 39

/-- Strip one matching pair of surrounding quotes from a value. -/
def stripQuotes (cs : List Char) : List Char :=
  match cs with
  | [] => []
  | c :: rest =>
    if (c = '"' ∨ c = singleQuoteChar) ∧ rest ≠ [] ∧ rest.getLast? = some c then
      rest.dropLast
    else cs

/-- Parse one metadata line into a key-value pair; `none` means malformed. -/
def parseKVLine (l : String) : Option (String × String) :=
  match splitColon l.data with
  | none => none
  | some (k, v) =>
    let key := trimChars k
    if key = [] then none
    else some (String.mk key, String.mk (stripQuotes (trimChars v)))

/-- Parse all metadata lines; `none` as soon as one is malformed. -/
def parseFMLines : List String → Option (List (String × String))
  | [] => some []
  | l :: ls =>
    if trimChars l.data = [] then parseFMLines ls
    else
      match parseKVLine l, parseFMLines ls with
      | some kv, some rest => some (kv :: rest)
      | _, _ => none

/-- Insert a key-value pair, overwriting an existing binding of the key. -/
def upsertKV : List (String × String) → String → String → List (String × String)
  | [], k, v => [(k, v)]
  | (k0, v0) :: rest, k, v =>
    if k0 = k then (k, v) :: rest else (k0, v0) :: upsertKV rest k v

/-- Fold raw pairs into a mapping with unique keys, last write winning. -/
def buildDataGo (acc : List (String × String)) : List (String × String) → List (String × String)
  | [] => acc
  | (k, v) :: rest => buildDataGo (upsertKV acc k v) rest

/-- Front matter of a text whose first line was the opening delimiter. -/
def matterAfterOpen (input : String) (rest : List String) : MatterResult :=
  match splitAtCloseFM rest with
  | none => { data := [], content := input }
  | some (metaLines, bodyLines) =>
    match parseFMLines metaLines with
    | none => { data := [], content := input }
    | some kvs => { data := buildDataGo [] kvs, content := joinLines bodyLines }

/-- Front-matter split of the given lines. -/
def matterOfLines (input : String) : List String → MatterResult
  | [] => { data := [], content := input }
  | first :: rest =>
    if first = "---" then matterAfterOpen input rest
    else { data := [], content := input }

/-- Front-matter split: metadata mapping plus remaining body. -/
def matter (input : String) : MatterResult := matterOfLines input (splitLines input)

/-- Well-formedness of a metadata block opened on the first line. -/
def wellFormedAfterOpen (rest : List String) : Bool :=
  ((splitAtCloseFM rest).map fun p => (parseFMLines p.1).isSome).getD false

/-- Well-formedness of a metadata block in the given lines. -/
def wellFormedOfLines : List String → Bool
  | [] => false
  | first :: rest => first = "---" && wellFormedAfterOpen rest

/-- Is the text headed by a well-formed delimited metadata block? -/
def wellFormedFM (input : String) : Bool := wellFormedOfLines (splitLines input)

/-! ### Display tree (hast) and transformer stages

The unified processor in the blog post page attaches, in source order:
remark-parse, remark-rehype, rehype-document (title "👋🌍"), rehype-format,
rehype-stringify, rehype-autolink-headings, rehype-slug, rehype-pretty-code.
Under unified semantics the stringify attachment only installs the compiler,
which runs after every transformer; the transformers run in attachment order.
So the tree passes through: document wrap, format, autolink, slug, pretty
code — and is serialized last.  The plugin behaviors themselves are modelled
from the spec's stage descriptions (stages 2-8), as their code is not part of
the repository. -/
inductive Hast where
  | text : String → Hast
  | element : String → List (String × String) → List Hast → Hast

/-- Look up an attribute value by name. -/
def getAttr : List (String × String) → String → Option String
  | [], _ => none
  | (k0, v) :: rest, k => if k0 = k then some v else getAttr rest k

/-- Heading elements are h1 through h6. -/
def isHeadingTag (t : String) : Bool :=
  t = "h1" || t = "h2" || t = "h3" || t = "h4" || t = "h5" || t = "h6"

mutual
/-- Concatenated text content of a node, like the DOM textContent. -/
def textContent : Hast → String
  | .text s => s
  | .element _ _ cs => textContentList cs
def textContentList : List Hast → String
  | [] => ""
  | c :: cs => textContent c ++ textContentList cs
end


/-- Stage 2: convert a markdown block to its display-tree node. -/
def mdToHast : MdBlock → Hast
  | .heading level t => .element ("h" ++ natRepr level) [] [.text t]
  | .paragraph t => .element "p" [] [.text t]
  | .codeBlock lang c =>
    .element "pre" [] [.element "code" [("class", "language-" ++ lang)] [.text c]]

/-- Document title the page passes to the wrapping stage. -/
def pageTitle : String := "👋🌍"

/-- Stage 3: wrap content in full-document boilerplate with the given title. -/
def rehypeDocument (title : String) (body : List Hast) : Hast :=
  .element "html" []
    [.element "head" [] [.element "title" [] [.text title]],
     .element "body" [] body]

/-- Stage 4: cosmetic whitespace formatting; semantically the identity. -/
def rehypeFormat (t : Hast) : Hast := t

mutual
/-- Stage 7: attach a self-link to each heading that carries an anchor id.
A heading without an id is left untouched. -/
def autolinkNode : Hast → Hast
  | .text s => .text s
  | .element tag attrs cs =>
    if isHeadingTag tag then
      match getAttr attrs "id" with
      | some anchorId =>
        .element tag attrs (Hast.element "a" [("href", "#" ++ anchorId)] [] :: autolinkList cs)
      | none => .element tag attrs (autolinkList cs)
    else .element tag attrs (autolinkList cs)
def autolinkList : List Hast → List Hast
  | [] => []
  | c :: cs => autolinkNode c :: autolinkList cs
end


def rehypeAutolinkHeadings (t : Hast) : Hast := autolinkNode t

mutual
/-- Stage 6: assign an anchor id, derived from the heading text and kept
unique via `freshFrom`, to every heading that has none, threading the set of
used slugs through the walk. -/
def slugNode (used : List String) : Hast → Hast × List String
  | .text s => (.text s, used)
  | .element tag attrs cs =>
    if isHeadingTag tag && (getAttr attrs "id").isNone then
      let anchorId := freshFrom used (slugify (textContentList cs))
      let r := slugList (anchorId :: used) cs
      (.element tag (attrs ++ [("id", anchorId)]) r.1, r.2)
    else
      let r := slugList used cs
      (.element tag attrs r.1, r.2)
def slugList (used : List String) : List Hast → List Hast × List String
  | [] => ([], used)
  | c :: cs =>
    let r1 := slugNode used c
    let r2 := slugList r1.2 cs
    (r1.1 :: r2.1, r2.2)
end


def rehypeSlug (t : Hast) : Hast := (slugNode [] t).1

mutual
/-- Stage 8: mark fenced code blocks as highlighted and give them a copy
affordance; prose nodes are only recursed into, never altered. -/
def prettyNode : Hast → Hast
  | .text s => .text s
  | .element tag attrs cs =>
    if tag = "pre" then
      .element "pre" (attrs ++ [("data-highlighted", "true")])
        (cs ++ [Hast.element "button" [("data-copy-feedback", "3000")] []])
    else .element tag attrs (prettyList cs)
def prettyList : List Hast → List Hast
  | [] => []
  | c :: cs => prettyNode c :: prettyList cs
end


def rehypePrettyCode (t : Hast) : Hast := prettyNode t

/-- Escape one character for markup serialization. -/
def escapeChar (c : Char) : String :=
  if c = '&' then "&amp;"
  else if c = '<' then "&lt;"
  else if c = '>' then "&gt;"
  else if c = '"' then "&quot;"
  else String.mk [c]

def escapeHtmlGo : List Char → String
  | [] => ""
  | c :: cs => escapeChar c ++ escapeHtmlGo cs

def escapeHtml (s : String) : String := escapeHtmlGo s.data

def attrsString : List (String × String) → String
  | [] => ""
  | (k, v) :: rest => " " ++ k ++ "=\"" ++ escapeHtml v ++ "\"" ++ attrsString rest

mutual
/-- Stage 5 (run last, as the compiler): serialize the tree to markup. -/
def serializeNode : Hast → String
  | .text s => escapeHtml s
  | .element tag attrs cs =>
    "<" ++ tag ++ attrsString attrs ++ ">" ++ serializeList cs ++ "</" ++ tag ++ ">"
def serializeList : List Hast → String
  | [] => ""
  | c :: cs => serializeNode c ++ serializeList cs
end


def rehypeStringify (t : Hast) : String := serializeNode t

/-- Full transformer chain on parsed blocks, in the source attachment order
(document wrap, format, autolink, slug, pretty code). -/
def processBlocks (blocks : List MdBlock) : Hast :=
  rehypePrettyCode (rehypeSlug (rehypeAutolinkHeadings
    (rehypeFormat (rehypeDocument pageTitle (blocks.map mdToHast)))))

/-- Full render of a body string: parse, then run the transformer chain. -/
def processBody (body : String) : Hast := processBlocks (parseMarkdown body)

/-! ### Collectors over the rendered tree -/
mutual
/-- Anchor ids of heading elements, in document (pre)order. -/
def headingIdsNode : Hast → List String
  | .text _ => []
  | .element tag attrs cs =>
    (if isHeadingTag tag then
      match getAttr attrs "id" with
      | some i => [i]
      | none => []
     else []) ++ headingIdsList cs
def headingIdsList : List Hast → List String
  | [] => []
  | c :: cs => headingIdsNode c ++ headingIdsList cs
end


mutual
/-- Entries for second-level headings: (text content, anchor id), in document
order.  This models the OnThisPage component, which re-parses the rendered
markup into a DOM, selects all h2 elements, and maps each to its textContent
and id (an absent id reads as the empty string). -/
def h2EntriesNode : Hast → List (String × String)
  | .text _ => []
  | .element tag attrs cs =>
    (if tag = "h2" then [(textContentList cs, (getAttr attrs "id").getD "")] else [])
      ++ h2EntriesList cs
def h2EntriesList : List Hast → List (String × String)
  | [] => []
  | c :: cs => h2EntriesNode c ++ h2EntriesList cs
end


mutual
/-- Does any element with the given tag occur in the tree? -/
def containsTagNode (tag : String) : Hast → Bool
  | .text _ => false
  | .element t _ cs => t = tag || containsTagList tag cs
def containsTagList (tag : String) : List Hast → Bool
  | [] => false
  | c :: cs => containsTagNode tag c || containsTagList tag cs
end


/-- Tag of the root node, if it is an element. -/
def rootTag : Hast → Option String
  | .text _ => none
  | .element t _ _ => some t

/-- Title text of a full standalone document (head > title). -/
def docTitleOf : Hast → Option String
  | .element _ _ (Hast.element "head" _ (Hast.element "title" _ ts :: _) :: _) =>
    some (textContentList ts)
  | _ => none

/-- Table-of-Contents Extractor: the OnThisPage component on rendered markup. -/
def onThisPage (t : Hast) : List (String × String) := h2EntriesNode t

/-! ### Page Renderer (app/blogpost/[slug]/page.js)

The page receives the slug, checks `fs.existsSync("content/" + slug + ".md")`
and — with the framework notFound() call commented out in the source — plainly
returns undefined when the file is absent, which the framework renders as an
empty page.  When present it splits front matter, runs the transformer chain
on the body, and composes the chrome (title and author from the metadata),
the rendered markup, and the OnThisPage extraction.  The content store is
passed explicitly as a list of (file path, file text) pairs. -/
structure PageView where
  title : String
  author : String
  htmlContent : String
  toc : List (String × String)
deriving Repr, DecidableEq

inductive RenderResult where
  /-- The explicit not-found signal a framework notFound() call would raise.
  Present in the result type because the source contains that call only in
  commented-out form; the live code never produces this value. -/
  | notFoundSignal : RenderResult
  /-- The composed page. -/
  | page : PageView → RenderResult
  /-- An empty render: the bare `return` the live code takes when the content
  file does not exist. -/
  | emptyRender : RenderResult
deriving Repr, DecidableEq

def RenderResult.view? : RenderResult → Option PageView
  | .page v => some v
  | _ => none

/-- Render one content file: front-matter split, transformer chain, chrome. -/
def renderDocument (fileContent : String) : PageView :=
  let m := matter fileContent
  let tree := processBody m.content
  { title := (getAttr m.data "title").getD ""
  , author := (getAttr m.data "author").getD ""
  , htmlContent := rehypeStringify tree
  , toc := onThisPage tree }

/-- The blog post page component. -/
def Page (slug : String) (store : List (String × String)) : RenderResult :=
  let filepath := "content/" ++ slug ++ ".md"
  match getAttr store filepath with
  | none => RenderResult.emptyRender
  | some fileContent => RenderResult.page (renderDocument fileContent)

/-- URL-safe characters for anchor ids: lower-case letters, digits, dash. -/
def urlSafeChar (c : Char) : Bool := c.isLower || c.isDigit || c = '-'

def urlSafeString (s : String) : Bool := s.data.all urlSafeChar

/-! ### Blog listing (app/blog/page.jsx)

The module reads the content directory, parses the front matter of every
file into `blogs`, and the component renders `blogs.slice(0, -1)` as cards.
The directory is modelled as the list of file contents in listing order. -/
/-- Front matter of every content file, in directory-listing order. -/
def blogsOf (files : List String) : List (List (String × String)) :=
  files.map fun c => (matter c).data

/-- The card list actually rendered: `blogs.slice(0, -1)`, i.e. all entries
up to but excluding the last. -/
def blogCards (files : List String) : List (List (String × String)) :=
  (blogsOf files).take ((blogsOf files).length - 1)

/-! ### Contact Submission Handler (app/api/contact/route.js)

The POST handler parses the request body, builds mail options, sends the mail
through the nodemailer transport, and answers 200 with a fixed success text;
any thrown error (body parse or transport) is caught and answered 500 with a
fixed generic text.  The body parse and the transport are the two fallible
collaborators, passed as explicit outcomes; the handler's side effects are
returned as an explicit trace, with a persistence effect present in the type
only so that its absence is statable. -/
inductive JsonBody where
  | ok : String → String → String → JsonBody
  | parseError : JsonBody

inductive SendOutcome where
  | sent : SendOutcome
  | failed : SendOutcome

structure HttpResponse where
  status : Nat
  message : String
deriving Repr, DecidableEq

inductive Effect where
  | sentMail : String → String → String → String → Effect
  | persistedMessage : String → String → String → Effect
deriving Repr, DecidableEq

def isPersistEffect : Effect → Bool
  | .persistedMessage _ _ _ => true
  | _ => false

def successResponse : HttpResponse :=
  { status := 200, message := "Your message has been sent successfully!" }

def failureResponse : HttpResponse :=
  { status := 500, message := "An error occurred. Please try again later." }

/-- The POST route handler; `recipient` stands for the configured address. -/
def POST (body : JsonBody) (send : SendOutcome) (recipient : String) :
    HttpResponse × List Effect :=
  match body with
  | .parseError => (failureResponse, [])
  | .ok name email message =>
    let opts := Effect.sentMail email recipient ("New message from " ++ name)
      ("Name: " ++ name ++ "\nEmail: " ++ email ++ "\nMessage: " ++ message)
    match send with
    | .sent => (successResponse, [opts])
    | .failed => (failureResponse, [opts])

/-! ### Contact form submit handler (contact page component)

State fields and setter order follow handleSubmit: the submitting flag is set
true first; the ok branch sets the success text, clears the flag, the error
text and the fields; the non-ok branch and the catch branch set an error text
and clear the success text — neither resets the submitting flag. -/
structure ContactState where
  name : String
  email : String
  message : String
  successMessage : String
  errorMessage : String
  isSubmitting : Bool
deriving Repr, DecidableEq

inductive FetchOutcome where
  | ok : FetchOutcome
  | notOk : FetchOutcome
  | threw : FetchOutcome

def handleSubmit (s : ContactState) (r : FetchOutcome) : ContactState :=
  let s1 := { s with isSubmitting := true }
  match r with
  | .ok =>
    { s1 with successMessage := "Your message has been sent successfully!"
            , isSubmitting := false
            , errorMessage := ""
            , name := ""
            , email := ""
            , message := "" }
  | .notOk =>
    { s1 with errorMessage := "Something went wrong. Please try again later."
            , successMessage := "" }
  | .threw =>
    { s1 with errorMessage := "An error occurred. Please try again later."
            , successMessage := "" }

/-- The submit button label: in-progress text while the flag is set. -/
def submitLabel (s : ContactState) : String :=
  if s.isSubmitting then "Sending..." else "Send Message"

/-! ### Heading text selectors on block lists -/
/-- Texts of the heading blocks a heading element is generated for (h1-h6). -/
def headingTexts : List MdBlock → List String
  | [] => []
  | MdBlock.heading level t :: bs =>
    if 1 ≤ level ∧ level ≤ 6 then t :: headingTexts bs else headingTexts bs
  | MdBlock.paragraph _ :: bs => headingTexts bs
  | MdBlock.codeBlock _ _ :: bs => headingTexts bs

/-- Texts of the second-level heading blocks. -/
def h2Texts : List MdBlock → List String
  | [] => []
  | MdBlock.heading level t :: bs => if level = 2 then t :: h2Texts bs else h2Texts bs
  | MdBlock.paragraph _ :: bs => h2Texts bs
  | MdBlock.codeBlock _ _ :: bs => h2Texts bs

theorem fromDigits_toDigitsF : ∀ (fuel n : Nat), n ≤ fuel → fromDigits (toDigitsF fuel n) = n := by
  intro fuel
  induction fuel with
  | zero =>
    intro n hn
    interval_cases n
    simp [toDigitsF, fromDigits]
  | succ fuel ih =>
    intro n hn
    simp only [toDigitsF]
    split
    · simp [fromDigits]
    · rename_i hge
      have hlt : n / 10 < n := Nat.div_lt_self (by omega) (by omega)
      rw [fromDigits, ih (n / 10) (by omega)]
      omega

theorem toDigitsF_lt_ten : ∀ (fuel n : Nat), ∀ d ∈ toDigitsF fuel n, d < 10 := by
  intro fuel
  induction fuel with
  | zero =>
    intro n d hd
    simp [toDigitsF] at hd
    omega
  | succ fuel ih =>
    intro n d hd
    simp only [toDigitsF] at hd
    split at hd
    · simp at hd; omega
    · rcases List.mem_cons.mp hd with h | h
      · omega
      · exact ih _ _ h

theorem digitChar_inj : ∀ a, a < 10 → ∀ b, b < 10 → digitChar a = digitChar b → a = b := by
  decide

theorem map_digitChar_inj :
    ∀ (a b : List Nat), (∀ d ∈ a, d < 10) → (∀ d ∈ b, d < 10) →
      a.map digitChar = b.map digitChar → a = b := by
  intro a
  induction a with
  | nil =>
    intro b _ _ h
    cases b with
    | nil => rfl
    | cons x xs => simp at h
  | cons x xs ih =>
    intro b ha hb h
    cases b with
    | nil => simp at h
    | cons y ys =>
      simp only [List.map_cons, List.cons.injEq] at h
      have hx : x = y :=
        digitChar_inj x (ha x (List.mem_cons_self x xs)) y (hb y (List.mem_cons_self y ys)) h.1
      have hxs : xs = ys :=
        ih ys (fun d hd => ha d (List.mem_cons_of_mem _ hd))
          (fun d hd => hb d (List.mem_cons_of_mem _ hd)) h.2
      rw [hx, hxs]

theorem string_mk_inj {a b : List Char} (h : String.mk a = String.mk b) : a = b := by
  injection h

theorem natRepr_inj {m n : Nat} (h : natRepr m = natRepr n) : m = n := by
  unfold natRepr at h
  have h1 := string_mk_inj h
  rw [List.map_reverse, List.map_reverse] at h1
  have h2 := List.reverse_injective h1
  have h3 := map_digitChar_inj _ _ (toDigitsF_lt_ten m m) (toDigitsF_lt_ten n n) h2
  have hm := fromDigits_toDigitsF m m le_rfl
  have hn := fromDigits_toDigitsF n n le_rfl
  rw [h3] at hm
  omega

/-! ### String helpers -/
theorem string_data_append (s t : String) : (s ++ t).data = s.data ++ t.data := by
  cases s; cases t; rfl

theorem string_data_inj {s t : String} (h : s.data = t.data) : s = t := by
  cases s; cases t; cases h; rfl

theorem string_append_left_cancel {s a b : String} (h : s ++ a = s ++ b) : a = b := by
  apply string_data_inj
  have := congrArg String.data h
  rw [string_data_append, string_data_append] at this
  exact List.append_cancel_left this

theorem numberedSlug_inj {base : String} {m n : Nat}
    (h : numberedSlug base m = numberedSlug base n) : m = n := by
  unfold numberedSlug at h
  have h1 := string_append_left_cancel h
  exact natRepr_inj h1

theorem exists_fresh (used : List String) (base : String) :
    ∃ m, 1 ≤ m ∧ m < used.length + 2 ∧ numberedSlug base m ∉ used := by
  by_contra hc
  push_neg at hc
  have hsub : (List.range' 1 (used.length + 1)).map (numberedSlug base) ⊆ used := by
    intro x hx
    rcases List.mem_map.mp hx with ⟨m, hm, rfl⟩
    rcases List.mem_range'_1.mp hm with ⟨hm1, hm2⟩
    exact hc m hm1 (by omega)
  have hnd : ((List.range' 1 (used.length + 1)).map (numberedSlug base)).Nodup :=
    (List.nodup_range' _ _ 1 Nat.one_pos).map fun _ _ h => numberedSlug_inj h
  have hlen := (List.subperm_of_subset hnd hsub).length_le
  rw [List.length_map, List.length_range'] at hlen
  omega

theorem freshFromAux_not_mem (used : List String) (base : String) :
    ∀ (fuel n : Nat), (∃ m, n ≤ m ∧ m < n + fuel ∧ numberedSlug base m ∉ used) →
      freshFromAux used base n fuel ∉ used := by
  intro fuel
  induction fuel with
  | zero =>
    rintro n ⟨m, h1, h2, _⟩
    omega
  | succ fuel ih =>
    rintro n ⟨m, h1, h2, h3⟩
    simp only [freshFromAux]
    split
    · rename_i hmem
      apply ih (n + 1)
      refine ⟨m, ?_, by omega, h3⟩
      have hne : m ≠ n := by
        intro he
        rw [he] at h3
        exact h3 hmem
      omega
    · assumption

theorem freshFrom_not_mem (used : List String) (base : String) :
    freshFrom used base ∉ used := by
  unfold freshFrom
  split
  · apply freshFromAux_not_mem
    rcases exists_fresh used base with ⟨m, h1, h2, h3⟩
    exact ⟨m, h1, by omega, h3⟩
  · assumption

theorem sluggerRun_fresh :
    ∀ (texts : List String) (used : List String),
      (∀ x ∈ sluggerRun used texts, x ∉ used) ∧ (sluggerRun used texts).Nodup := by
  intro texts
  induction texts with
  | nil => intro used; simp [sluggerRun]
  | cons t ts ih =>
    intro used
    simp only [sluggerRun]
    obtain ⟨hfresh, hnd⟩ := ih (freshFrom used (slugify t) :: used)
    constructor
    · intro x hx
      rcases List.mem_cons.mp hx with h | h
      · rw [h]; exact freshFrom_not_mem used (slugify t)
      · intro hxu
        exact hfresh x h (List.mem_cons_of_mem _ hxu)
    · refine List.nodup_cons.mpr ⟨?_, hnd⟩
      intro hmem
      exact hfresh _ hmem (List.mem_cons_self _ _)

/-! ### Helper lemmas for the front-matter theorems -/
theorem splitAtCloseFM_eq :
    ∀ (ls a b : List String), splitAtCloseFM ls = some (a, b) →
      ls = a ++ "---" :: b ∧ "---" ∉ a := by
  intro ls
  induction ls with
  | nil => intro a b h; simp [splitAtCloseFM] at h
  | cons l ls ih =>
    intro a b h
    by_cases hl : l = "---"
    · simp only [splitAtCloseFM, if_pos hl, Option.some.injEq, Prod.mk.injEq] at h
      rw [← h.1, ← h.2, hl]
      simp [← h.1]
    · simp only [splitAtCloseFM, if_neg hl, Option.map_eq_some'] at h
      rcases h with ⟨⟨a1, b1⟩, hsplit, hpair⟩
      simp only [Prod.mk.injEq] at hpair
      obtain ⟨heq, hnot⟩ := ih a1 b1 hsplit
      rw [← hpair.1, ← hpair.2]
      constructor
      · rw [heq]; rfl
      · intro hmem
        rcases List.mem_cons.mp hmem with he | he
        · exact hl he.symm
        · exact hnot he

theorem mem_upsertKV_keys :
    ∀ (m : List (String × String)) (k v x : String),
      x ∈ (upsertKV m k v).map Prod.fst → x ∈ m.map Prod.fst ∨ x = k := by
  intro m
  induction m with
  | nil => intro k v x h; simp [upsertKV] at h; right; exact h
  | cons p rest ih =>
    intro k v x h
    obtain ⟨k0, v0⟩ := p
    by_cases hk : k0 = k
    · simp only [upsertKV, if_pos hk, List.map_cons, List.mem_cons] at h
      rcases h with h | h
      · right; exact h
      · left
        simp only [List.map_cons, List.mem_cons]
        exact Or.inr h
    · simp only [upsertKV, if_neg hk, List.map_cons, List.mem_cons] at h
      rcases h with h | h
      · left
        simp only [List.map_cons, List.mem_cons]
        exact Or.inl h
      · rcases ih k v x h with h2 | h2
        · left
          simp only [List.map_cons, List.mem_cons]
          exact Or.inr h2
        · right; exact h2

theorem upsertKV_keys_nodup :
    ∀ (m : List (String × String)) (k v : String),
      (m.map Prod.fst).Nodup → ((upsertKV m k v).map Prod.fst).Nodup := by
  intro m
  induction m with
  | nil => intro k v _; simp [upsertKV]
  | cons p rest ih =>
    intro k v h
    obtain ⟨k0, v0⟩ := p
    simp only [List.map_cons, List.nodup_cons] at h
    by_cases hk : k0 = k
    · simp only [upsertKV, if_pos hk, List.map_cons, List.nodup_cons]
      exact ⟨hk ▸ h.1, h.2⟩
    · simp only [upsertKV, if_neg hk, List.map_cons, List.nodup_cons]
      refine ⟨?_, ih k v h.2⟩
      intro hmem
      rcases mem_upsertKV_keys rest k v k0 hmem with h2 | h2
      · exact h.1 h2
      · exact hk h2

theorem buildDataGo_keys_nodup :
    ∀ (kvs acc : List (String × String)),
      (acc.map Prod.fst).Nodup → ((buildDataGo acc kvs).map Prod.fst).Nodup := by
  intro kvs
  induction kvs with
  | nil => intro acc h; simpa [buildDataGo] using h
  | cons p rest ih =>
    intro acc h
    obtain ⟨k, v⟩ := p
    simp only [buildDataGo]
    exact ih _ (upsertKV_keys_nodup acc k v h)

/-! ### Claim C7 -/
/-- C7: the Front-Matter Parser totalizes.  A text without a well-formed
delimited metadata block at its start comes back unchanged with an empty
mapping, never an error; a text with one is split into the mapping (with
unique keys) and the body following the first closing delimiter. -/
theorem front_matter_totalizes :
    ∀ input : String,
      (wellFormedFM input = false → matter input = { data := [], content := input })
      ∧ (wellFormedFM input = true →
          ∃ metaLines bodyLines,
            splitLines input = "---" :: (metaLines ++ "---" :: bodyLines)
            ∧ "---" ∉ metaLines
            ∧ (matter input).content = joinLines bodyLines
            ∧ ((matter input).data.map Prod.fst).Nodup) := by
  intro input
  have hm : matter input = matterOfLines input (splitLines input) := rfl
  have hw : wellFormedFM input = wellFormedOfLines (splitLines input) := rfl
  rcases hsplit : splitLines input with _ | ⟨first, rest⟩ <;>
    rw [hsplit] at hm hw
  · constructor
    · intro _; rw [hm]; rfl
    · intro hwf
      rw [hw] at hwf
      simp [wellFormedOfLines] at hwf
  · constructor
    · intro hwf
      rw [hw] at hwf
      by_cases hfirst : first = "---"
      · have hafter : wellFormedAfterOpen rest = false := by
          simpa [wellFormedOfLines, hfirst] using hwf
        unfold wellFormedAfterOpen at hafter
        rw [hm]
        simp only [matterOfLines, hfirst, if_pos rfl]
        rcases hclose : splitAtCloseFM rest with _ | ⟨metaLines, bodyLines⟩
        · simp [matterAfterOpen, hclose]
        · rw [hclose] at hafter
          simp only [Option.map_some', Option.getD_some] at hafter
          rcases hkvs : parseFMLines metaLines with _ | kvs
          · simp [matterAfterOpen, hclose, hkvs]
          · rw [hkvs] at hafter; simp at hafter
      · rw [hm]
        simp [matterOfLines, hfirst]
    · intro hwf
      rw [hw] at hwf
      simp only [wellFormedOfLines, Bool.and_eq_true, decide_eq_true_eq] at hwf
      obtain ⟨hfirst, hafter⟩ := hwf
      unfold wellFormedAfterOpen at hafter
      rcases hclose : splitAtCloseFM rest with _ | ⟨metaLines, bodyLines⟩
      · rw [hclose] at hafter; simp at hafter
      · rw [hclose] at hafter
        simp only [Option.map_some', Option.getD_some, Option.isSome_iff_exists] at hafter
        obtain ⟨kvs, hkvs⟩ := hafter
        refine ⟨metaLines, bodyLines, ?_, ?_, ?_, ?_⟩
        · obtain ⟨heq, _⟩ := splitAtCloseFM_eq rest metaLines bodyLines hclose
          rw [hfirst, heq]
        · exact (splitAtCloseFM_eq rest metaLines bodyLines hclose).2
        · rw [hm]
          simp [matterOfLines, hfirst, matterAfterOpen, hclose, hkvs]
        · rw [hm]
          simp only [matterOfLines, hfirst, if_pos rfl, matterAfterOpen, hclose, hkvs]
          exact buildDataGo_keys_nodup kvs [] (by simp)

/-- Witness for C7: both branches discharged at concrete inputs. -/
theorem front_matter_totalizes_witness :
    matter "plain" = { data := [], content := "plain" }
    ∧ (∃ metaLines bodyLines,
        splitLines "---\nt: v\n---\nbody" = "---" :: (metaLines ++ "---" :: bodyLines)
        ∧ "---" ∉ metaLines
        ∧ (matter "---\nt: v\n---\nbody").content = joinLines bodyLines
        ∧ ((matter "---\nt: v\n---\nbody").data.map Prod.fst).Nodup) :=
  ⟨(front_matter_totalizes "plain").1 (by decide),
   (front_matter_totalizes "---\nt: v\n---\nbody").2 (by decide)⟩

/-! ### Claim C1 -/
/-- Counterexample for C1 as stated: requesting a slug with no content file
does not yield the not-found signal; the live code takes the bare return and
the render is empty. -/
theorem page_missing_slug_counterexample :
    Page "ghost" [] = RenderResult.emptyRender
    ∧ Page "ghost" [] ≠ RenderResult.notFoundSignal := by
  constructor
  · rfl
  · decide

/-- C1 amended: a missing content file makes the page render return an empty
output — not the not-found signal — and never a fault; an existing file
yields the composed display output. -/
theorem page_render_amended :
    ∀ (slug : String) (store : List (String × String)),
      (getAttr store ("content/" ++ slug ++ ".md") = none →
        Page slug store = RenderResult.emptyRender
        ∧ Page slug store ≠ RenderResult.notFoundSignal)
      ∧ (∀ c, getAttr store ("content/" ++ slug ++ ".md") = some c →
          Page slug store = RenderResult.page (renderDocument c)) := by
  intro slug store
  constructor
  · intro h
    constructor
    · simp only [Page]; rw [h]
    · simp only [Page]; rw [h]; intro hc; exact RenderResult.noConfusion hc
  · intro c h
    simp only [Page]; rw [h]

/-- Witness for C1 amended: both branches discharged at concrete inputs. -/
theorem page_render_amended_witness :
    (Page "ghost" [] = RenderResult.emptyRender
      ∧ Page "ghost" [] ≠ RenderResult.notFoundSignal)
    ∧ Page "hello" [("content/hello.md", "body")]
        = RenderResult.page (renderDocument "body") :=
  ⟨(page_render_amended "ghost" []).1 rfl,
   (page_render_amended "hello" [("content/hello.md", "body")]).2 "body" (by decide)⟩

/-! ### Claim C8 -/
/-- C8: the contact handler answers exactly one of the two fixed signals —
success exactly when the body parses and the transport delivers, the generic
failure on a parse or transport error — and its effect trace never contains a
persistence effect. -/
theorem contact_post_two_signals :
    ∀ (body : JsonBody) (send : SendOutcome) (recipient : String),
      ((POST body send recipient).1 = successResponse
        ∨ (POST body send recipient).1 = failureResponse)
      ∧ ((POST body send recipient).2.all fun e => !isPersistEffect e) = true
      ∧ (∀ (name email message : String),
          (POST (.ok name email message) .sent recipient).1 = successResponse
          ∧ (POST (.ok name email message) .failed recipient).1 = failureResponse
          ∧ (POST .parseError send recipient).1 = failureResponse) := by
  intro body send recipient
  refine ⟨?_, ?_, ?_⟩
  · cases body <;> cases send <;> simp [POST]
  · cases body <;> cases send <;> simp [POST, isPersistEffect]
  · intro name email message
    cases send <;> simp [POST]

/-! ### Claim C9 -/
/-- C9: the blog listing parses the front matter of every content file but
renders cards only for all entries except the last one of the directory
listing, in listing order. -/
theorem blog_listing_omits_last :
    ∀ files : List String,
      (blogsOf files).length = files.length
      ∧ blogCards files = (blogsOf files).dropLast
      ∧ (blogCards files).length = files.length - 1 := by
  intro files
  refine ⟨List.length_map _ _, ?_, ?_⟩
  · rw [blogCards, List.dropLast_eq_take]
  · rw [blogCards, List.length_take]
    have h : (blogsOf files).length = files.length := List.length_map _ _
    rw [h]
    exact min_eq_left (Nat.sub_le _ _)

/-! ### Claim C10 -/
/-- C10: the submit handler sets the in-progress flag, and only the success
branch resets it; a non-ok response or a thrown transport error leaves the
flag set, so the button keeps the in-progress label. -/
theorem submit_flag_reset_only_on_success :
    ∀ s : ContactState,
      (handleSubmit s .notOk).isSubmitting = true
      ∧ (handleSubmit s .threw).isSubmitting = true
      ∧ (handleSubmit s .ok).isSubmitting = false
      ∧ submitLabel (handleSubmit s .notOk) = "Sending..."
      ∧ submitLabel (handleSubmit s .threw) = "Sending..." := by
  intro s
  simp [handleSubmit, submitLabel]

/-! ### Tag lemmas for the transformer proofs -/
theorem string_append_empty (s : String) : s ++ "" = s := by
  apply string_data_inj
  rw [string_data_append]
  simp [String.data]

theorem textContentList_single (t : String) : textContentList [Hast.text t] = t := by
  simp only [textContentList, textContent]
  exact string_append_empty t

theorem hTag_inj {level k : Nat} (h : ("h" ++ natRepr level : String) = "h" ++ natRepr k) :
    level = k :=
  natRepr_inj (string_append_left_cancel h)

theorem isHeadingTag_hTag (level : Nat) :
    isHeadingTag ("h" ++ natRepr level) = true ↔ (1 ≤ level ∧ level ≤ 6) := by
  constructor
  · intro h
    simp only [isHeadingTag, Bool.or_eq_true, decide_eq_true_eq] at h
    have e1 : ("h1" : String) = "h" ++ natRepr 1 := rfl
    have e2 : ("h2" : String) = "h" ++ natRepr 2 := rfl
    have e3 : ("h3" : String) = "h" ++ natRepr 3 := rfl
    have e4 : ("h4" : String) = "h" ++ natRepr 4 := rfl
    have e5 : ("h5" : String) = "h" ++ natRepr 5 := rfl
    have e6 : ("h6" : String) = "h" ++ natRepr 6 := rfl
    rcases h with ((((h | h) | h) | h) | h) | h
    · have := hTag_inj (h.trans e1); omega
    · have := hTag_inj (h.trans e2); omega
    · have := hTag_inj (h.trans e3); omega
    · have := hTag_inj (h.trans e4); omega
    · have := hTag_inj (h.trans e5); omega
    · have := hTag_inj (h.trans e6); omega
  · rintro ⟨h1, h6⟩
    interval_cases level <;> rfl

theorem hTag_eq_h2_iff (level : Nat) : (("h" ++ natRepr level : String) = "h2") ↔ level = 2 := by
  have e : ("h2" : String) = "h" ++ natRepr 2 := rfl
  rw [e]
  exact ⟨fun h => hTag_inj h, fun h => by rw [h]⟩

theorem hTag_ne_pre (level : Nat) : ("h" ++ natRepr level : String) ≠ "pre" := by
  intro h
  have h2 := congrArg String.data h
  rw [string_data_append] at h2
  have h3 : ('h' :: (natRepr level).data) = ['p', 'r', 'e'] := h2
  have h4 : 'h' = 'p' := by injection h3
  exact absurd h4 (by decide)

theorem ne_h2_of_not_heading {tag : String} (hf : isHeadingTag tag = false) : tag ≠ "h2" := by
  intro he
  rw [he] at hf
  exact absurd hf (by decide)

/-! ### Walk computations on the block shapes -/
theorem slugNode_heading (used : List String) (tag t : String) (h : isHeadingTag tag = true) :
    slugNode used (Hast.element tag [] [Hast.text t])
      = (Hast.element tag [("id", freshFrom used (slugify t))] [Hast.text t],
         freshFrom used (slugify t) :: used) := by
  simp only [slugNode, getAttr, Option.isNone_none, Bool.and_true, h, if_pos rfl]
  rw [textContentList_single]
  rfl

theorem slugNode_nonheading (used : List String) (tag : String) (attrs : List (String × String))
    (cs : List Hast) (h : (isHeadingTag tag && (getAttr attrs "id").isNone) = false) :
    slugNode used (Hast.element tag attrs cs)
      = (Hast.element tag attrs (slugList used cs).1, (slugList used cs).2) := by
  simp only [slugNode, h]
  simp

theorem heading_ne_pre {tag : String} (h : isHeadingTag tag = true) : tag ≠ "pre" := by
  intro he
  rw [he] at h
  exact absurd h (by decide)

theorem prettyNode_nonpre (tag : String) (attrs : List (String × String)) (cs : List Hast)
    (h : tag ≠ "pre") :
    prettyNode (Hast.element tag attrs cs) = Hast.element tag attrs (prettyList cs) := by
  simp only [prettyNode, if_neg h]

theorem headingIdsNode_heading (tag a : String) (cs : List Hast)
    (h : isHeadingTag tag = true) :
    headingIdsNode (Hast.element tag [("id", a)] cs) = a :: headingIdsList cs := by
  simp [headingIdsNode, h, getAttr]

theorem headingIdsNode_nonheading (tag : String) (attrs : List (String × String))
    (cs : List Hast) (h : isHeadingTag tag = false) :
    headingIdsNode (Hast.element tag attrs cs) = headingIdsList cs := by
  simp [headingIdsNode, h]

/-! ### The self-link stage is inert before anchor assignment -/
theorem autolink_mdToHast (b : MdBlock) : autolinkNode (mdToHast b) = mdToHast b := by
  cases b with
  | heading level t =>
    simp only [mdToHast, autolinkNode]
    split
    · rfl
    · rfl
  | paragraph t => rfl
  | codeBlock lang c => rfl

theorem autolink_list_mdToHast (blocks : List MdBlock) :
    autolinkList (blocks.map mdToHast) = blocks.map mdToHast := by
  induction blocks with
  | nil => rfl
  | cons b bs ih => simp [autolinkList, autolink_mdToHast, ih]

/-! ### Shape of the transformed document -/
theorem processBlocks_shape (blocks : List MdBlock) :
    processBlocks blocks
      = Hast.element "html" []
          [Hast.element "head" [] [Hast.element "title" [] [Hast.text pageTitle]],
           Hast.element "body" [] (prettyList (slugList [] (blocks.map mdToHast)).1)] := by
  have h1 : processBlocks blocks
      = rehypePrettyCode (rehypeSlug (Hast.element "html" []
          [Hast.element "head" [] [Hast.element "title" [] [Hast.text pageTitle]],
           Hast.element "body" [] (autolinkList (blocks.map mdToHast))])) := rfl
  rw [h1, autolink_list_mdToHast]
  rfl

theorem h2EntriesNode_h2 (a t : String) :
    h2EntriesNode (Hast.element "h2" [("id", a)] [Hast.text t]) = [(t, a)] := by
  simp [h2EntriesNode, getAttr, h2EntriesList, textContentList_single]

theorem h2EntriesNode_ne (tag : String) (attrs : List (String × String)) (cs : List Hast)
    (h : tag ≠ "h2") :
    h2EntriesNode (Hast.element tag attrs cs) = h2EntriesList cs := by
  simp [h2EntriesNode, h]

/-! ### The walk on each generated block shape -/
theorem slugList_cons_para (used : List String) (t : String) (rest : List Hast) :
    slugList used (mdToHast (MdBlock.paragraph t) :: rest)
      = (mdToHast (MdBlock.paragraph t) :: (slugList used rest).1,
         (slugList used rest).2) := rfl

theorem slugList_cons_code (used : List String) (lang c : String) (rest : List Hast) :
    slugList used (mdToHast (MdBlock.codeBlock lang c) :: rest)
      = (mdToHast (MdBlock.codeBlock lang c) :: (slugList used rest).1,
         (slugList used rest).2) := rfl

theorem prettyList_cons (c : Hast) (cs : List Hast) :
    prettyList (c :: cs) = prettyNode c :: prettyList cs := rfl

theorem headingIdsList_cons (c : Hast) (cs : List Hast) :
    headingIdsList (c :: cs) = headingIdsNode c ++ headingIdsList cs := rfl

theorem h2EntriesList_cons (c : Hast) (cs : List Hast) :
    h2EntriesList (c :: cs) = h2EntriesNode c ++ h2EntriesList cs := rfl

theorem headingIds_pretty_para (t : String) :
    headingIdsNode (prettyNode (mdToHast (MdBlock.paragraph t))) = [] := rfl

theorem headingIds_pretty_code (lang c : String) :
    headingIdsNode (prettyNode (mdToHast (MdBlock.codeBlock lang c))) = [] := rfl

theorem h2Entries_pretty_para (t : String) :
    h2EntriesNode (prettyNode (mdToHast (MdBlock.paragraph t))) = [] := rfl

theorem h2Entries_pretty_code (lang c : String) :
    h2EntriesNode (prettyNode (mdToHast (MdBlock.codeBlock lang c))) = [] := rfl

theorem prettyList_text (t : String) : prettyList [Hast.text t] = [Hast.text t] := rfl

theorem headingIdsList_text (t : String) : headingIdsList [Hast.text t] = [] := rfl

theorem h2EntriesList_text (t : String) : h2EntriesList [Hast.text t] = [] := rfl

/-- Core walk lemma: over the block-generated trees, the anchor-id stage
threads its used-slug state exactly like `sluggerRun` on the heading texts;
the highlighted tree then carries precisely those anchor ids in document
order, and its second-level entries carry the h2 texts paired with their own
anchor ids. -/
theorem slug_pretty_blocks :
    ∀ (blocks : List MdBlock) (used : List String),
      (slugList used (blocks.map mdToHast)).2
        = (sluggerRun used (headingTexts blocks)).reverse ++ used
      ∧ headingIdsList (prettyList (slugList used (blocks.map mdToHast)).1)
        = sluggerRun used (headingTexts blocks)
      ∧ (h2EntriesList (prettyList (slugList used (blocks.map mdToHast)).1)).map Prod.fst
        = h2Texts blocks
      ∧ List.Sublist (h2EntriesList (prettyList (slugList used (blocks.map mdToHast)).1))
          (List.zip (headingTexts blocks) (sluggerRun used (headingTexts blocks))) := by
  intro blocks
  induction blocks with
  | nil =>
    intro used
    refine ⟨?_, ?_, ?_, ?_⟩ <;>
      simp [slugList, sluggerRun, headingTexts, h2Texts, prettyList, headingIdsList,
        h2EntriesList]
  | cons b bs ih =>
    intro used
    cases b with
    | heading level t =>
      simp only [List.map_cons]
      by_cases hlv : 1 ≤ level ∧ level ≤ 6
      · have htag : isHeadingTag ("h" ++ natRepr level) = true :=
          (isHeadingTag_hTag level).mpr hlv
        have hslug : slugList used (mdToHast (MdBlock.heading level t) :: bs.map mdToHast)
            = (Hast.element ("h" ++ natRepr level)
                 [("id", freshFrom used (slugify t))] [Hast.text t]
                 :: (slugList (freshFrom used (slugify t) :: used) (bs.map mdToHast)).1,
               (slugList (freshFrom used (slugify t) :: used) (bs.map mdToHast)).2) := by
          show slugList used
              (Hast.element ("h" ++ natRepr level) [] [Hast.text t] :: bs.map mdToHast) = _
          simp only [slugList]
          rw [slugNode_heading used ("h" ++ natRepr level) t htag]
        obtain ⟨ih1, ih2, ih3, ih4⟩ := ih (freshFrom used (slugify t) :: used)
        rw [hslug]
        simp only [headingTexts, if_pos hlv, sluggerRun]
        refine ⟨?_, ?_, ?_, ?_⟩
        · rw [ih1]
          simp [List.reverse_cons, List.append_assoc]
        · rw [prettyList_cons, headingIdsList_cons,
            prettyNode_nonpre _ _ _ (hTag_ne_pre level), prettyList_text,
            headingIdsNode_heading _ _ _ htag, headingIdsList_text, ih2]
          rfl
        · by_cases hl2 : level = 2
          · subst hl2
            have htag2 : ("h" ++ natRepr 2 : String) = "h2" := rfl
            rw [prettyList_cons, h2EntriesList_cons,
              prettyNode_nonpre _ _ _ (hTag_ne_pre 2), prettyList_text, htag2,
              h2EntriesNode_h2]
            simp only [h2Texts, if_pos rfl, List.map_append, List.map_cons, List.map_nil]
            rw [ih3]
            rfl
          · have hne2 : ("h" ++ natRepr level : String) ≠ "h2" :=
              fun he => hl2 ((hTag_eq_h2_iff level).mp he)
            rw [prettyList_cons, h2EntriesList_cons,
              prettyNode_nonpre _ _ _ (hTag_ne_pre level),
              h2EntriesNode_ne _ _ _ hne2, prettyList_text, h2EntriesList_text]
            simp only [h2Texts, if_neg hl2, List.nil_append]
            exact ih3
        · rw [List.zip_cons_cons]
          by_cases hl2 : level = 2
          · subst hl2
            have htag2 : ("h" ++ natRepr 2 : String) = "h2" := rfl
            rw [prettyList_cons, h2EntriesList_cons,
              prettyNode_nonpre _ _ _ (hTag_ne_pre 2), prettyList_text, htag2,
              h2EntriesNode_h2]
            exact List.Sublist.cons₂ _ ih4
          · have hne2 : ("h" ++ natRepr level : String) ≠ "h2" :=
              fun he => hl2 ((hTag_eq_h2_iff level).mp he)
            rw [prettyList_cons, h2EntriesList_cons,
              prettyNode_nonpre _ _ _ (hTag_ne_pre level),
              h2EntriesNode_ne _ _ _ hne2, prettyList_text, h2EntriesList_text]
            simp only [List.nil_append]
            exact List.Sublist.cons _ ih4
      · have htag : isHeadingTag ("h" ++ natRepr level) = false := by
          rw [Bool.eq_false_iff]
          intro hh
          exact hlv ((isHeadingTag_hTag level).mp hh)
        have hcond : (isHeadingTag ("h" ++ natRepr level)
            && (getAttr ([] : List (String × String)) "id").isNone) = false := by
          rw [htag]; rfl
        have hslug : slugList used (mdToHast (MdBlock.heading level t) :: bs.map mdToHast)
            = (Hast.element ("h" ++ natRepr level) [] [Hast.text t]
                 :: (slugList used (bs.map mdToHast)).1,
               (slugList used (bs.map mdToHast)).2) := by
          show slugList used
              (Hast.element ("h" ++ natRepr level) [] [Hast.text t] :: bs.map mdToHast) = _
          simp only [slugList]
          rw [slugNode_nonheading used _ _ _ hcond]
          rfl
        obtain ⟨ih1, ih2, ih3, ih4⟩ := ih used
        rw [hslug]
        have hl2 : level ≠ 2 := fun he => hlv (by rw [he]; exact ⟨by norm_num, by norm_num⟩)
        have hne2 : ("h" ++ natRepr level : String) ≠ "h2" := ne_h2_of_not_heading htag
        simp only [headingTexts, if_neg hlv, h2Texts, if_neg hl2]
        refine ⟨ih1, ?_, ?_, ?_⟩
        · rw [prettyList_cons, headingIdsList_cons,
            prettyNode_nonpre _ _ _ (hTag_ne_pre level), prettyList_text,
            headingIdsNode_nonheading _ _ _ htag, headingIdsList_text, List.nil_append]
          exact ih2
        · rw [prettyList_cons, h2EntriesList_cons,
            prettyNode_nonpre _ _ _ (hTag_ne_pre level),
            h2EntriesNode_ne _ _ _ hne2, prettyList_text, h2EntriesList_text,
            List.nil_append]
          exact ih3
        · rw [prettyList_cons, h2EntriesList_cons,
            prettyNode_nonpre _ _ _ (hTag_ne_pre level),
            h2EntriesNode_ne _ _ _ hne2, prettyList_text, h2EntriesList_text,
            List.nil_append]
          exact ih4
    | paragraph t =>
      simp only [List.map_cons]
      obtain ⟨ih1, ih2, ih3, ih4⟩ := ih used
      rw [slugList_cons_para]
      simp only [headingTexts, h2Texts]
      refine ⟨ih1, ?_, ?_, ?_⟩
      · rw [prettyList_cons, headingIdsList_cons, headingIds_pretty_para, List.nil_append]
        exact ih2
      · rw [prettyList_cons, h2EntriesList_cons, h2Entries_pretty_para, List.nil_append]
        exact ih3
      · rw [prettyList_cons, h2EntriesList_cons, h2Entries_pretty_para, List.nil_append]
        exact ih4
    | codeBlock lang c =>
      simp only [List.map_cons]
      obtain ⟨ih1, ih2, ih3, ih4⟩ := ih used
      rw [slugList_cons_code]
      simp only [headingTexts, h2Texts]
      refine ⟨ih1, ?_, ?_, ?_⟩
      · rw [prettyList_cons, headingIdsList_cons, headingIds_pretty_code, List.nil_append]
        exact ih2
      · rw [prettyList_cons, h2EntriesList_cons, h2Entries_pretty_code, List.nil_append]
        exact ih3
      · rw [prettyList_cons, h2EntriesList_cons, h2Entries_pretty_code, List.nil_append]
        exact ih4

theorem wrapper_ids (X : List Hast) :
    headingIdsNode (Hast.element "html" []
      [Hast.element "head" [] [Hast.element "title" [] [Hast.text pageTitle]],
       Hast.element "body" [] X]) = headingIdsList X := by
  simp [headingIdsNode, headingIdsList, isHeadingTag]

theorem wrapper_h2 (X : List Hast) :
    h2EntriesNode (Hast.element "html" []
      [Hast.element "head" [] [Hast.element "title" [] [Hast.text pageTitle]],
       Hast.element "body" [] X]) = h2EntriesList X := by
  simp [h2EntriesNode, h2EntriesList]

theorem processBlocks_ids (blocks : List MdBlock) :
    headingIdsNode (processBlocks blocks) = sluggerRun [] (headingTexts blocks) := by
  rw [processBlocks_shape, wrapper_ids]
  exact (slug_pretty_blocks blocks []).2.1

theorem processBlocks_toc_texts (blocks : List MdBlock) :
    (onThisPage (processBlocks blocks)).map Prod.fst = h2Texts blocks := by
  unfold onThisPage
  rw [processBlocks_shape, wrapper_h2]
  exact (slug_pretty_blocks blocks []).2.2.1

theorem sluggerRun_length (texts : List String) :
    ∀ used : List String, (sluggerRun used texts).length = texts.length := by
  induction texts with
  | nil => intro used; rfl
  | cons t ts ih => intro used; simp [sluggerRun, ih]

theorem processBlocks_toc_ids_sublist (blocks : List MdBlock) :
    List.Sublist ((onThisPage (processBlocks blocks)).map Prod.snd)
      (headingIdsNode (processBlocks blocks)) := by
  unfold onThisPage
  rw [processBlocks_ids, processBlocks_shape, wrapper_h2]
  have hs := (slug_pretty_blocks blocks []).2.2.2
  have hmap := hs.map Prod.snd
  rwa [List.map_snd_zip (headingTexts blocks) (sluggerRun [] (headingTexts blocks))
    (le_of_eq (sluggerRun_length (headingTexts blocks) []))] at hmap

/-! ### Claim C2 -/
/-- C2 evaluated at the failing input "## Overview": the transformer chain
attaches the self-link stage before the anchor-id stage, so when self-links
are attached no heading has an id yet and the stage is inert.  The final tree
carries the heading anchor id "overview", but contains no link element at
all — no heading carries a self-link, contrary to the claim. -/
theorem autolink_before_slug_code_bug :
    headingIdsNode (processBody "## Overview") = ["overview"]
    ∧ containsTagNode "a" (processBody "## Overview") = false := by
  constructor
  · decide
  · decide

/-! ### Claim C3 -/
/-- C3: within every rendered document the heading anchor ids are pairwise
distinct, and two headings with the same text "Overview" receive "overview"
and "overview-1". -/
theorem heading_anchor_ids_unique :
    (∀ body : String, (headingIdsNode (processBody body)).Nodup)
    ∧ headingIdsNode (processBody "## Overview\n## Overview")
        = ["overview", "overview-1"] := by
  constructor
  · intro body
    unfold processBody
    rw [processBlocks_ids]
    exact (sluggerRun_fresh (headingTexts (parseMarkdown body)) []).2
  · decide

/-! ### Claim C4 -/
/-- Counterexample for C4 as stated: rendering an ordinary blog body does not
produce an embeddable fragment; the boilerplate stage always wraps, so the
output is a full standalone document (html root, head > title "👋🌍"). -/
theorem render_fragment_counterexample :
    rootTag (processBody "Some text") = some "html"
    ∧ docTitleOf (processBody "Some text") = some pageTitle := by
  constructor
  · decide
  · decide

/-- C4 amended: the boilerplate-wrapping stage runs unconditionally — for
every body the render output is a full standalone document rooted at an html
element whose head carries the fixed title, never a bare fragment. -/
theorem render_always_full_document :
    ∀ body : String,
      rootTag (processBody body) = some "html"
      ∧ docTitleOf (processBody body) = some pageTitle := by
  intro body
  unfold processBody
  rw [processBlocks_shape]
  exact ⟨rfl, rfl⟩

/-! ### Claim C5 -/
/-- C5: the Table-of-Contents Extractor returns exactly the second-level
headings of the rendered document — their texts in document order, each id
drawn from the document's heading anchor ids — and an empty sequence exactly
when the document has no second-level heading. -/
theorem toc_exactly_second_level :
    ∀ body : String,
      (onThisPage (processBody body)).map Prod.fst = h2Texts (parseMarkdown body)
      ∧ List.Sublist ((onThisPage (processBody body)).map Prod.snd)
          (headingIdsNode (processBody body))
      ∧ (onThisPage (processBody body) = [] ↔ h2Texts (parseMarkdown body) = []) := by
  intro body
  unfold processBody
  refine ⟨processBlocks_toc_texts _, processBlocks_toc_ids_sublist _, ?_⟩
  constructor
  · intro h
    rw [← processBlocks_toc_texts (parseMarkdown body), h]
    rfl
  · intro h
    have := processBlocks_toc_texts (parseMarkdown body)
    rw [h] at this
    exact List.map_eq_nil_iff.mp this

/-! ### Claim C6 -/
/-- C6: the round-trip scenario.  For the content file with front matter
title "Hello" and slug "hello" and body "## Section One\nSome text", the page
render yields exactly one table-of-contents entry with text "Section One" and
the non-empty, URL-safe anchor id "section-one", and the chrome title is
"Hello". -/
theorem hello_round_trip :
    (Page "hello"
        [("content/hello.md", "---\ntitle: Hello\nslug: hello\n---\n## Section One\nSome text")]).view?.map
          PageView.toc = some [("Section One", "section-one")]
    ∧ (Page "hello"
        [("content/hello.md", "---\ntitle: Hello\nslug: hello\n---\n## Section One\nSome text")]).view?.map
          PageView.title = some "Hello"
    ∧ urlSafeString "section-one" = true
    ∧ "section-one" ≠ "" := by
  refine ⟨?_, ?_, ?_, ?_⟩
  · decide
  · decide
  · decide
  · decide
